import Mathlib

/-!
# Verification of `batch_convert_docs.py` (ShipAny docs batch converter)

Shallow embedding of the converter pipeline: page catalog, fetch step,
HTML extraction (tag exclusion), Markdown rendering, file writing, and
index generation, together with theorems settling the specification
claims about them.
-/

namespace BatchConvert

/-! ## HTML data model

`BeautifulSoup(response.content, 'html.parser')` produces a tree of
elements (with a lowercased tag name and attributes) and text nodes.
A parsed document is a forest (`List Html`). -/

inductive Html where
  | text : String → Html
  | elem : String → List (String × String) → List Html → Html
deriving Repr

/-- The fixed exclusion set of line 116:
`soup.find_all(['nav', 'aside', 'footer', 'script', 'style'])`. -/
def excludedTags : List String := ["nav", "aside", "footer", "script", "style"]

/-- Embeds lines 116-117: `find_all` collects every element (at any depth)
whose tag is in `excludedTags` and `decompose()` removes each from the
tree; the net effect is that every subtree rooted at an excluded tag is
removed, and the rest of the tree is kept verbatim. -/
def cleanList : List Html → List Html
  | [] => []
  | .text s :: rest => .text s :: cleanList rest
  | .elem t attrs children :: rest =>
    if t ∈ excludedTags then cleanList rest
    else .elem t attrs (cleanList children) :: cleanList rest

/-- All text-node payloads of a forest, in document order. -/
def allTexts : List Html → List String
  | [] => []
  | .text s :: rest => s :: allTexts rest
  | .elem _ _ children :: rest => allTexts children ++ allTexts rest

/-- Text-node payloads that do not lie under any element with an excluded
tag (these are exactly the texts extraction is allowed to keep). -/
def textsOutside : List Html → List String
  | [] => []
  | .text s :: rest => s :: textsOutside rest
  | .elem t _ children :: rest =>
    (if t ∈ excludedTags then [] else textsOutside children) ++ textsOutside rest

/-! ## Python string helpers -/

/-- Python title-casing, for the ASCII letters this program feeds it: a letter
preceded by a non-letter is uppercased, a letter preceded by a letter is
lowercased, every other character (digits, punctuation, CJK) passes
through unchanged. The accumulator records whether the previous
character was a (cased) letter. -/
def pyTitleAux : Bool → List Char → List Char
  | _, [] => []
  | prev, c :: cs =>
    (if c.isAlpha then (if prev then c.toLower else c.toUpper) else c)
      :: pyTitleAux c.isAlpha cs

/-- Python `s.title()` (ASCII fragment, see `pyTitleAux`). -/
def pyTitle (s : String) : String := ⟨pyTitleAux false s.data⟩

/-- Splitting at every occurrence of a separator character, the
behaviour of Python `s.split(sep)` (and of `String.splitOn`) for a
one-character separator. -/
def splitOnChar (c : Char) : List Char → List (List Char)
  | [] => [[]]
  | x :: xs =>
    match splitOnChar c xs with
    | [] => if x = c then [[], []] else [[x]]
    | w :: ws => if x = c then [] :: w :: ws else (x :: w) :: ws

/-- Python `s.split('/')` for this program: the slash-separated
segments of a stem. -/
def splitSlash (s : String) : List String :=
  (splitOnChar '/' s.data).map fun cs => (⟨cs⟩ : String)

/-- Python `s.replace(c, r)` for a one-character pattern. -/
def replaceChar (c : Char) (r : List Char) : List Char → List Char
  | [] => []
  | x :: xs => (if x = c then r else [x]) ++ replaceChar c r xs

/-- Models `urllib.parse.urljoin(base, rel)` for the inputs this program
uses: a base URL with a non-empty path and a relative path with no
scheme and no leading slash. The segment after the last `/` of the base
is dropped and the relative path is appended. -/
def urljoinModel (base rel : String) : String :=
  ⟨(base.data.reverse.dropWhile (fun c => c ≠ '/')).reverse⟩ ++ rel

/-! ## html2text renderer (spec-modelled)

The renderer is the third-party `html2text` library, configured at lines
24-27. Modelled from the spec: hyperlinks are preserved as Markdown
links `[text](href)` when `ignore_links` is false, output is not wrapped
when `body_width` is zero, and all other elements contribute the
rendering of their children. The output is modelled as a stream of
tokens so that emitted text content is distinguishable from Markdown
syntax. -/

structure H2TConfig where
  ignore_links : Bool
  body_width : Nat
  unicode_snob : Bool
deriving Repr

/-- The configuration built in `__init__` (lines 24-27):
`ignore_links = False`, `body_width = 0`, `unicode_snob = True`. -/
def hCfg : H2TConfig := ⟨false, 0, true⟩

inductive Tok where
  | txt : String → Tok
  | sym : String → Tok
deriving Repr, DecidableEq

def tokStr : Tok → String
  | .txt s => s
  | .sym s => s

/-- Value of the `href` attribute of an anchor element (empty if absent). -/
def hrefOf (attrs : List (String × String)) : String :=
  match attrs.find? (fun p => p.1 == "href") with
  | some p => p.2
  | none => ""

/-- Modelled from the spec: the Markdown token stream of a forest. Text
nodes are emitted verbatim as `txt` tokens; an `a` element (with links
not ignored) is rendered `[children](href)`; every other element
contributes the tokens of its children. -/
def renderToks (cfg : H2TConfig) : List Html → List Tok
  | [] => []
  | .text s :: rest => .txt s :: renderToks cfg rest
  | .elem t attrs children :: rest =>
    (if t == "a" && !cfg.ignore_links then
      .sym "[" :: (renderToks cfg children ++ [.sym ("](" ++ hrefOf attrs ++ ")")])
    else
      renderToks cfg children) ++ renderToks cfg rest

/-- Modelled from the spec: when `body_width` is positive the output is
wrapped to that many columns; `body_width = 0` disables wrapping. -/
def wrapLines (bw : Nat) (s : String) : String :=
  if bw = 0 then s
  else String.intercalate "\n"
    ((s.splitOn "\n").map fun line =>
      String.intercalate "\n" ((line.data.toChunks bw).map fun cs => (⟨cs⟩ : String)))

/-- Line 120, `self.h.handle(...)`: render the token stream to a string
and apply the configured wrapping. -/
def handle (cfg : H2TConfig) (hs : List Html) : String :=
  wrapLines cfg.body_width (String.join ((renderToks cfg hs).map tokStr))

/-! ## Fetch step -/

/-- Outcome of `self.session.get(url, timeout=10)`: either a response
(final status and parsed body) or a network failure / timeout. -/
inductive HttpResult where
  | response : Nat → List Html → HttpResult
  | netError : HttpResult

/-- Models `requests.Response.raise_for_status()`: raises `HTTPError` exactly
when `400 <= status < 500` (client error) or `500 <= status < 600`
(server error); every other status — 2xx but also 1xx and 3xx — passes. -/
def raise_for_status (status : Nat) : Except String Unit :=
  if 400 ≤ status ∧ status < 500 then .error "Client Error"
  else if 500 ≤ status ∧ status < 600 then .error "Server Error"
  else .ok ()

/-- Lines 109-110: perform the GET and check the status; on success the
response body is handed on unchanged. -/
def fetchStep : HttpResult → Except String (List Html)
  | .netError => .error "ConnectionError"
  | .response st body =>
    match raise_for_status st with
    | .error e => .error e
    | .ok _ => .ok body

/-- Status in the 2xx range. -/
def is2xx (st : Nat) : Bool := 200 ≤ st && st < 300

/-! ## Writer -/

/-- Line 16: the configured base URL. -/
def base_url : String := "https://docs.shipany.ai/en"

/-- Line 123: `f"shipany_docs/{filename}.md"`. -/
def filePath (filename : String) : String := "shipany_docs/" ++ filename ++ ".md"

/-- Lines 127-130: the file body written for a converted page — an H1
from the stem (slashes to " - ", then title-cased), a blank line, the
source line, a blank line, then the Markdown. -/
def pageFileContent (filename url markdown : String) : String :=
  "# " ++ pyTitle ⟨replaceChar '/' (" - ".data) filename.data⟩ ++ "\n\n"
    ++ "来源: " ++ url ++ "\n\n" ++ markdown

/-- The file structure as the specification words it: an H1 line whose
text is the transformed stem, a blank line, the line `来源: <url>`, a
blank line, then the Markdown body. -/
def spec_pageFileContent (s u m : String) : String :=
  ("# " ++ pyTitle ⟨replaceChar '/' (" - ".data) s.data⟩) ++ "\n" ++ "\n"
    ++ ("来源: " ++ u) ++ "\n" ++ "\n" ++ m

/-! ## convert_page / convert_all -/

/-- Lines 103-137, `convert_page`, with the network abstracted as a
function from URL to `HttpResult`. Returns the written `(path, content)`
pair on success and `none` when the entry fails (the `except` at line
135 turns any error into `return False`). -/
def convert_page (fetch : String → HttpResult) (page_path filename : String) :
    Option (String × String) :=
  let url := urljoinModel base_url page_path
  match fetchStep (fetch url) with
  | .error _ => none
  | .ok body =>
    some (filePath filename,
      pageFileContent filename url (handle hCfg (cleanList body)))

/-- Lines 139-152, `convert_all`: fold over the catalog counting
`(successful, failed)`. -/
def convert_all (fetch : String → HttpResult) (pages : List (String × String)) :
    Nat × Nat :=
  pages.foldl
    (fun acc e =>
      match convert_page fetch e.1 e.2 with
      | some _ => (acc.1 + 1, acc.2)
      | none => (acc.1, acc.2 + 1))
    (0, 0)

/-! ## Index builder -/

/-- Line 172: the section of a stem — its first path segment, or the
fallback label for stems without a slash. -/
def sectionOf (filename : String) : String :=
  if '/' ∈ filename.data then (splitSlash filename).headD "" else "主要文档"

/-- One emitted fragment of the index body: a section heading (storing
the raw section name) or a per-page list item (storing the stem). -/
inductive IdxPiece where
  | heading : String → IdxPiece
  | item : String → IdxPiece
deriving Repr, DecidableEq

/-- The string a piece appends to `index_content` (lines 174 and 178). -/
def pieceStr : IdxPiece → String
  | .heading s => "\n## " ++ pyTitle s ++ "\n\n"
  | .item fn =>
    "- [" ++ pyTitle ⟨replaceChar '-' [' '] ((splitSlash fn).getLastD "").data⟩
      ++ "](./" ++ fn ++ ".md)\n"

/-- Lines 170-178: walk the catalog holding the current section
(initially `""`); emit a heading whenever the section changes, and an
item for every entry. -/
def indexPieces : String → List (String × String) → List IdxPiece
  | _, [] => []
  | cur, (_, filename) :: rest =>
    let sec := sectionOf filename
    if sec ≠ cur then .heading sec :: .item filename :: indexPieces sec rest
    else .item filename :: indexPieces cur rest

/-- Lines 162-168: the fixed index preamble. -/
def index_header : String :=
  "# ShipAny 文档索引\n\n本文档包含 ShipAny 项目的完整操作指南。\n\n## 目录结构\n\n"

/-- The full text written to the index file. -/
def index_content (pages : List (String × String)) : String :=
  index_header ++ String.join ((indexPieces "" pages).map pieceStr)

/-- Line 180: the index file path. -/
def indexPath : String := "shipany_docs/README.md"

/-- Lines 32-101, `get_all_pages`: the static catalog in insertion
order. -/
def get_all_pages : List (String × String) := [
  ("get-started", "get-started"),
  ("guide/prerequisites", "guide/prerequisites"),
  ("guide/whats-new", "guide/whats-new"),
  ("guide/faq", "guide/faq"),
  ("features/database", "features/database"),
  ("features/oauth", "features/oauth"),
  ("features/analytics", "features/analytics"),
  ("features/i18n", "features/i18n"),
  ("features/storage", "features/storage"),
  ("features/seo", "features/seo"),
  ("features/blog", "features/blog"),
  ("features/email", "features/email"),
  ("features/email/resend", "features/email/resend"),
  ("payment/stripe", "payment/stripe"),
  ("payment/creem", "payment/creem"),
  ("feedback", "feedback"),
  ("affiliate", "affiliate"),
  ("emails", "emails"),
  ("user-console/user-console", "user-console/user-console"),
  ("user-console/new-table", "user-console/new-table"),
  ("user-console/api-keys", "user-console/api-keys"),
  ("user-console/credits", "user-console/credits"),
  ("admin-system/admin-config", "admin-system/admin-config"),
  ("admin-system/admin-layout", "admin-system/admin-layout"),
  ("admin-system/add-table", "admin-system/add-table"),
  ("ai-integrations/image-generation", "ai-integrations/image-generation"),
  ("ai-integrations/video-generation", "ai-integrations/video-generation"),
  ("ai-integrations/text-generation", "ai-integrations/text-generation"),
  ("ai-integrations/chat-completions", "ai-integrations/chat-completions"),
  ("ai-integrations/text-to-speech", "ai-integrations/text-to-speech"),
  ("components/header", "components/header"),
  ("components/hero", "components/hero"),
  ("components/feature", "components/feature"),
  ("components/showcase", "components/showcase"),
  ("components/pricing", "components/pricing"),
  ("components/testimonial", "components/testimonial"),
  ("components/faq", "components/faq"),
  ("components/cta", "components/cta"),
  ("components/footer", "components/footer"),
  ("deploy/deploy-to-vercel", "deploy/deploy-to-vercel"),
  ("deploy/deploy-to-cloudflare", "deploy/deploy-to-cloudflare"),
  ("deploy/deploy-with-dokploy", "deploy/deploy-with-dokploy"),
  ("tutorials/customize-landing-page", "tutorials/customize-landing-page"),
  ("tutorials/new-page", "tutorials/new-page"),
  ("tutorials/new-components", "tutorials/new-components"),
  ("tutorials/api-call", "tutorials/api-call"),
  ("tutorials/edit-agreement", "tutorials/edit-agreement")]

/-- The files a full run writes, in order: one per successful entry,
then the index (which `create_index` builds from the catalog alone). -/
def fullRun (fetch : String → HttpResult) (pages : List (String × String)) :
    List (String × String) :=
  (pages.filterMap fun e => convert_page fetch e.1 e.2)
    ++ [(indexPath, index_content pages)]

/-! ## Auxiliary notions used by the statements -/

/-- Occurrence of a subtree inside an HTML tree. -/
inductive InTree : Html → Html → Prop where
  | refl (h : Html) : InTree h h
  | via_child {t c : Html} (tag : String) (attrs : List (String × String))
      (children : List Html) :
      c ∈ children → InTree t c → InTree t (.elem tag attrs children)

/-- First component of each heading piece, in order. -/
def headOf : IdxPiece → Option String
  | .heading s => some s
  | .item _ => none

/-- Stem of each item piece, in order. -/
def itemOf : IdxPiece → Option String
  | .item s => some s
  | .heading _ => none

/-- Adjacent deduplication starting from a current value: keeps an
element exactly when it differs from the previously kept (or initial)
one. -/
def dedupAdj (cur : String) : List String → List String
  | [] => []
  | s :: rest => if s ≠ cur then s :: dedupAdj s rest else dedupAdj cur rest

/-! ## Helper lemmas -/

theorem allTexts_cleanList (hs : List Html) :
    allTexts (cleanList hs) = textsOutside hs := by
  induction hs using cleanList.induct with
  | case1 => simp [cleanList, allTexts, textsOutside]
  | case2 s rest ih => simp [cleanList, allTexts, textsOutside, ih]
  | case3 t attrs children rest hmem ih =>
    simp [cleanList, allTexts, textsOutside, hmem, ih]
  | case4 t attrs children rest hmem ih1 ih2 =>
    simp [cleanList, allTexts, textsOutside, hmem, ih1, ih2]

theorem txt_mem_renderToks (cfg : H2TConfig) (hs : List Html) (s : String)
    (hmem : Tok.txt s ∈ renderToks cfg hs) : s ∈ allTexts hs := by
  induction hs using renderToks.induct cfg with
  | case1 => simp [renderToks] at hmem
  | case2 s' rest ih =>
    simp only [renderToks, List.mem_cons] at hmem
    rcases hmem with h | h
    · simp [allTexts, Tok.txt.injEq] at h
      simp [allTexts, h]
    · simp [allTexts, ih h]
  | case3 t attrs children rest ih1 ih2 =>
    simp only [renderToks, List.mem_append] at hmem
    rcases hmem with h | h
    · split at h
      · simp only [List.mem_cons, List.mem_append] at h
        rcases h with h | h | h
        · exact absurd h (by simp)
        · simp [allTexts, ih1 h]
        · exact absurd h (by simp)
      · simp [allTexts, ih1 h]
    · simp [allTexts, ih2 h]

theorem renderToks_cons (cfg : H2TConfig) (x : Html) (xs : List Html) :
    renderToks cfg (x :: xs) = renderToks cfg [x] ++ renderToks cfg xs := by
  cases x with
  | text s => simp [renderToks]
  | elem t attrs children => simp [renderToks]

theorem mem_renderToks_segment (cfg : H2TConfig) (c : Html) (cs : List Html)
    (h : c ∈ cs) : List.IsInfix (renderToks cfg [c]) (renderToks cfg cs) := by
  induction cs with
  | nil => simp at h
  | cons a rest ih =>
    rcases List.mem_cons.mp h with rfl | h
    · rw [renderToks_cons cfg c rest]
      exact (List.prefix_append _ _).isInfix
    · rw [renderToks_cons cfg a rest]
      exact (ih h).trans (List.suffix_append _ _).isInfix

theorem inTree_renderToks_segment (cfg : H2TConfig) {t h : Html}
    (hin : InTree t h) : List.IsInfix (renderToks cfg [t]) (renderToks cfg [h]) := by
  induction hin with
  | refl => exact List.infix_rfl
  | via_child tag attrs children hmem hin ih =>
    refine List.IsInfix.trans (ih.trans (mem_renderToks_segment cfg _ children hmem)) ?_
    simp only [renderToks, List.append_nil]
    split
    · exact ⟨[Tok.sym "["], [Tok.sym ("](" ++ hrefOf attrs ++ ")")], by simp⟩
    · exact List.infix_rfl

theorem convert_all_aux (fetch : String → HttpResult)
    (pages : List (String × String)) (a b : Nat) :
    pages.foldl
      (fun acc e =>
        match convert_page fetch e.1 e.2 with
        | some _ => (acc.1 + 1, acc.2)
        | none => (acc.1, acc.2 + 1))
      (a, b)
    = (a + pages.countP (fun e => (convert_page fetch e.1 e.2).isSome),
       b + pages.countP (fun e => (convert_page fetch e.1 e.2).isNone)) := by
  induction pages generalizing a b with
  | nil => simp
  | cons e rest ih =>
    simp only [List.foldl_cons, List.countP_cons]
    cases hconv : convert_page fetch e.1 e.2 with
    | none => simp [ih, hconv]; omega
    | some out => simp [ih, hconv]; omega

theorem convert_all_counts (fetch : String → HttpResult)
    (pages : List (String × String)) :
    convert_all fetch pages
    = (pages.countP (fun e => (convert_page fetch e.1 e.2).isSome),
       pages.countP (fun e => (convert_page fetch e.1 e.2).isNone)) := by
  simpa using convert_all_aux fetch pages 0 0

theorem item_mem_indexPieces (pages : List (String × String)) (cur pp fn : String)
    (h : (pp, fn) ∈ pages) : IdxPiece.item fn ∈ indexPieces cur pages := by
  induction pages generalizing cur with
  | nil => simp at h
  | cons e rest ih =>
    obtain ⟨pp', fn'⟩ := e
    rcases List.mem_cons.mp h with heq | h
    · obtain ⟨rfl, rfl⟩ := Prod.mk.injEq .. ▸ heq
      simp only [indexPieces]
      split <;> simp
    · simp only [indexPieces]
      split <;> simp [ih _ h]

theorem headings_indexPieces (pages : List (String × String)) (cur : String) :
    (indexPieces cur pages).filterMap headOf
    = dedupAdj cur (pages.map fun e => sectionOf e.2) := by
  induction pages generalizing cur with
  | nil => simp [indexPieces, dedupAdj]
  | cons e rest ih =>
    obtain ⟨pp, fn⟩ := e
    simp only [indexPieces, List.map_cons, dedupAdj]
    split <;> simp [headOf, itemOf, ih]

theorem items_indexPieces (pages : List (String × String)) (cur : String) :
    (indexPieces cur pages).filterMap itemOf = pages.map fun e => e.2 := by
  induction pages generalizing cur with
  | nil => simp [indexPieces]
  | cons e rest ih =>
    obtain ⟨pp, fn⟩ := e
    simp only [indexPieces, List.map_cons]
    split <;> simp [headOf, itemOf, ih]

theorem pageFileContent_eq_spec (s u m : String) :
    pageFileContent s u m = spec_pageFileContent s u m := by
  simp only [pageFileContent, spec_pageFileContent]
  apply String.ext
  simp [String.data_append]

/-! ## Claims -/

/-- C1: for every input HTML document, after extraction (removal of the
`nav`, `aside`, `footer`, `script`, `style` subtrees, nested occurrences
included) and Markdown rendering in `convert_page`, every text payload
emitted into the Markdown body comes from a text node lying under no
excluded element — so no text content of an excluded element appears in
the output. -/
theorem c1_extraction_removes_excluded (hs : List Html) (s : String)
    (hmem : Tok.txt s ∈ renderToks hCfg (cleanList hs)) :
    s ∈ textsOutside hs := by
  have h := txt_mem_renderToks hCfg (cleanList hs) s hmem
  rwa [allTexts_cleanList] at h

/-- Witness for C1 at a concrete document with a nested `nav`. -/
theorem c1_extraction_removes_excluded_witness :
    (Tok.txt "hi" ∈ renderToks hCfg (cleanList
        [Html.elem "body" [] [Html.elem "nav" [] [Html.text "skip"], Html.text "hi"]]))
    ∧ "hi" ∈ textsOutside
        [Html.elem "body" [] [Html.elem "nav" [] [Html.text "skip"], Html.text "hi"]] := by
  have hmem : Tok.txt "hi" ∈ renderToks hCfg (cleanList
      [Html.elem "body" [] [Html.elem "nav" [] [Html.text "skip"], Html.text "hi"]]) := by
    simp [cleanList, excludedTags, renderToks, hCfg]
  exact ⟨hmem, c1_extraction_removes_excluded _ "hi" hmem⟩

/-- C2 counterexample: status 304 is not 2xx, yet the fetch step does
not fail — `raise_for_status` raises only for 4xx/5xx, so the body is
returned. -/
theorem c2_counterexample :
    is2xx 304 = false
    ∧ fetchStep (HttpResult.response 304 [Html.text "b"])
        = Except.ok [Html.text "b"] := by
  refine ⟨rfl, ?_⟩
  simp [fetchStep, raise_for_status]

/-- C2 (amended): the fetch step returns the raw body exactly when the
final status is outside 400-599 (every 2xx in particular), and fails for
network failure or timeout and for every 4xx/5xx status. -/
theorem c2_fetch_status (st : Nat) (body : List Html) :
    (fetchStep (HttpResult.response st body) = Except.ok body
      ↔ ¬(400 ≤ st ∧ st < 600))
    ∧ (is2xx st = true → fetchStep (HttpResult.response st body) = Except.ok body)
    ∧ fetchStep HttpResult.netError = Except.error "ConnectionError" := by
  have hiff : fetchStep (HttpResult.response st body) = Except.ok body
      ↔ ¬(400 ≤ st ∧ st < 600) := by
    simp only [fetchStep, raise_for_status]
    by_cases h1 : 400 ≤ st ∧ st < 500
    · simp only [if_pos h1]
      constructor
      · intro h; exact absurd h (by simp)
      · intro h; exact absurd ⟨h1.1, by omega⟩ h
    · by_cases h2 : 500 ≤ st ∧ st < 600
      · simp only [if_neg h1, if_pos h2]
        constructor
        · intro h; exact absurd h (by simp)
        · intro h; exact absurd ⟨by omega, h2.2⟩ h
      · simp only [if_neg h1, if_neg h2]
        constructor
        · intro _; omega
        · intro _; trivial
  refine ⟨hiff, fun h2xx => hiff.mpr ?_, rfl⟩
  have : 200 ≤ st ∧ st < 300 := by simpa [is2xx] using h2xx
  omega

/-- Witness for C2 (amended) at status 200. -/
theorem c2_fetch_status_witness :
    is2xx 200 = true
    ∧ fetchStep (HttpResult.response 200 []) = Except.ok ([] : List Html) :=
  ⟨rfl, (c2_fetch_status 200 []).2.1 rfl⟩

/-- C3: per-entry failures are absorbed — the failure count is exactly
the number of entries whose conversion fails and the success count the
number of those that succeed, every entry being visited; the index lists
an item for every catalog entry, and the index file written at the end
of the run does not depend on the fetch outcomes. -/
theorem c3_failure_isolation (fetch : String → HttpResult)
    (pages : List (String × String)) :
    (convert_all fetch pages).2
        = pages.countP (fun e => (convert_page fetch e.1 e.2).isNone)
    ∧ (convert_all fetch pages).1
        = pages.countP (fun e => (convert_page fetch e.1 e.2).isSome)
    ∧ (∀ pp fn, (pp, fn) ∈ pages → IdxPiece.item fn ∈ indexPieces "" pages)
    ∧ (fullRun fetch pages).getLast? = some (indexPath, index_content pages) := by
  refine ⟨?_, ?_, ?_, ?_⟩
  · rw [convert_all_counts]
  · rw [convert_all_counts]
  · exact fun pp fn h => item_mem_indexPieces pages "" pp fn h
  · rw [fullRun, List.getLast?_append_of_ne_nil _ (by simp)]
    rfl

/-- Witness for C3: a run in which every fetch fails still indexes every
entry and writes the same index file. -/
theorem c3_failure_isolation_witness :
    IdxPiece.item "a" ∈ indexPieces "" [("a", "a"), ("b", "b")]
    ∧ (fullRun (fun _ => HttpResult.netError) [("a", "a"), ("b", "b")]).getLast?
        = some (indexPath, index_content [("a", "a"), ("b", "b")]) :=
  ⟨(c3_failure_isolation (fun _ => HttpResult.netError)
      [("a", "a"), ("b", "b")]).2.2.1 "a" "a" (by simp),
   (c3_failure_isolation (fun _ => HttpResult.netError)
      [("a", "a"), ("b", "b")]).2.2.2⟩

/-- C4: a successfully converted entry is written at
`shipany_docs/<stem>.md` with exactly the structure the spec describes:
H1 from the transformed stem, blank line, the source line, blank line,
then the Markdown body. -/
theorem c4_file_structure (fetch : String → HttpResult) (pp fn : String)
    (st : Nat) (body : List Html)
    (hresp : fetch (urljoinModel base_url pp) = HttpResult.response st body)
    (hst : ¬(400 ≤ st ∧ st < 600)) :
    convert_page fetch pp fn
      = some (filePath fn,
          spec_pageFileContent fn (urljoinModel base_url pp)
            (handle hCfg (cleanList body))) := by
  have h1 : ¬(400 ≤ st ∧ st < 500) := by omega
  have h2 : ¬(500 ≤ st ∧ st < 600) := by omega
  simp [convert_page, hresp, fetchStep, raise_for_status, h1, h2,
    pageFileContent_eq_spec]

/-- Witness for C4 at a concrete entry and response. -/
theorem c4_file_structure_witness :
    convert_page (fun _ => HttpResult.response 200 []) "p" "f"
      = some (filePath "f",
          spec_pageFileContent "f" (urljoinModel base_url "p")
            (handle hCfg (cleanList []))) :=
  c4_file_structure (fun _ => HttpResult.response 200 []) "p" "f" 200 []
    rfl (by omega)

/-- C5: the index walks the catalog in order, the emitted headings are
exactly the adjacent deduplication of the per-entry sections (a new
heading appears exactly when the section differs from the previous
one, starting from the empty section), one item is emitted per entry in
order, and the catalog with stems `a/x`, `a/y`, `b/z` yields exactly two
headings, two items under the first and one under the second. -/
theorem c5_index_grouping :
    (∀ (pages : List (String × String)) (cur : String),
        (indexPieces cur pages).filterMap headOf
          = dedupAdj cur (pages.map fun e => sectionOf e.2))
    ∧ (∀ (pages : List (String × String)) (cur : String),
        (indexPieces cur pages).filterMap itemOf = pages.map fun e => e.2)
    ∧ indexPieces "" [("a/x", "a/x"), ("a/y", "a/y"), ("b/z", "b/z")]
        = [.heading "a", .item "a/x", .item "a/y", .heading "b", .item "b/z"]
    ∧ (indexPieces "" [("a/x", "a/x"), ("a/y", "a/y"), ("b/z", "b/z")]).map pieceStr
        = ["\n## A\n\n", "- [X](./a/x.md)\n", "- [Y](./a/y.md)\n",
           "\n## B\n\n", "- [Z](./b/z.md)\n"] :=
  ⟨headings_indexPieces, items_indexPieces, rfl, rfl⟩

/-- C6: two complete runs against the same remote content (fetch
functions agreeing on every catalog URL) write byte-identical page files
and a byte-identical index file. -/
theorem c6_deterministic_runs (f g : String → HttpResult)
    (pages : List (String × String))
    (h : ∀ e ∈ pages,
      f (urljoinModel base_url e.1) = g (urljoinModel base_url e.1)) :
    fullRun f pages = fullRun g pages := by
  unfold fullRun
  congr 1
  exact List.filterMap_congr fun e he => by simp [convert_page, h e he]

/-- Witness for C6: two distinct fetch functions agreeing on the
catalog URL produce identical runs. -/
theorem c6_deterministic_runs_witness :
    fullRun (fun _ => HttpResult.response 200 [Html.text "t"]) [("a", "a")]
      = fullRun
          (fun u => if u = "zzz" then HttpResult.netError
            else HttpResult.response 200 [Html.text "t"])
          [("a", "a")] :=
  c6_deterministic_runs _ _ [("a", "a")]
    (fun e he => by rcases List.mem_singleton.mp he with rfl; rfl)

/-- C7: a hyperlink element with target X and text Y occurring anywhere
in the cleaned HTML is rendered as the Markdown link `[Y](X)` inside the
output token stream, and with the configured `body_width = 0` the
rendered text is not wrapped. -/
theorem c7_link_preserved (X Y : String) (h : Html) (hs : List Html)
    (hin : InTree (Html.elem "a" [("href", X)] [Html.text Y]) h)
    (hmem : h ∈ hs) :
    List.IsInfix [Tok.sym "[", Tok.txt Y, Tok.sym ("](" ++ X ++ ")")]
        (renderToks hCfg hs)
    ∧ handle hCfg hs = String.join ((renderToks hCfg hs).map tokStr) := by
  constructor
  · have h1 : renderToks hCfg [Html.elem "a" [("href", X)] [Html.text Y]]
        = [Tok.sym "[", Tok.txt Y, Tok.sym ("](" ++ X ++ ")")] := by
      simp [renderToks, hCfg, hrefOf]
    have h2 := (inTree_renderToks_segment hCfg hin).trans
      (mem_renderToks_segment hCfg h hs hmem)
    rwa [h1] at h2
  · simp [handle, wrapLines, hCfg]

/-- Witness for C7: a link nested under a `div` is preserved. -/
theorem c7_link_preserved_witness :
    List.IsInfix [Tok.sym "[", Tok.txt "y", Tok.sym ("](" ++ "x" ++ ")")]
        (renderToks hCfg
          [Html.elem "div" [] [Html.elem "a" [("href", "x")] [Html.text "y"]]])
    ∧ handle hCfg
          [Html.elem "div" [] [Html.elem "a" [("href", "x")] [Html.text "y"]]]
        = String.join ((renderToks hCfg
            [Html.elem "div" [] [Html.elem "a" [("href", "x")] [Html.text "y"]]]).map
              tokStr) :=
  c7_link_preserved "x" "y"
    (Html.elem "div" [] [Html.elem "a" [("href", "x")] [Html.text "y"]])
    [Html.elem "div" [] [Html.elem "a" [("href", "x")] [Html.text "y"]]]
    (InTree.via_child "div" [] _ (by simp) (InTree.refl _))
    (by simp)

/-- C8: a converted entry is always written at
`shipany_docs/<stem>.md` — a function of the stem alone — and the index
at `shipany_docs/README.md`. -/
theorem c8_output_paths (fetch : String → HttpResult) (pp fn : String)
    (out : String × String) (hconv : convert_page fetch pp fn = some out) :
    out.1 = "shipany_docs/" ++ fn ++ ".md"
    ∧ filePath fn = "shipany_docs/" ++ fn ++ ".md"
    ∧ indexPath = "shipany_docs/README.md" := by
  refine ⟨?_, rfl, rfl⟩
  simp only [convert_page] at hconv
  split at hconv
  · exact absurd hconv (by simp)
  · simp only [Option.some.injEq] at hconv
    subst hconv
    rfl

/-- Witness for C8 at a concrete successful entry. -/
theorem c8_output_paths_witness :
    (filePath "f", pageFileContent "f" (urljoinModel base_url "p")
        (handle hCfg (cleanList []))).1 = "shipany_docs/" ++ "f" ++ ".md"
    ∧ filePath "f" = "shipany_docs/" ++ "f" ++ ".md"
    ∧ indexPath = "shipany_docs/README.md" :=
  c8_output_paths (fun _ => HttpResult.response 200 []) "p" "f" _
    (by simp [convert_page, fetchStep, raise_for_status])

/-- C9: after `convert_all`, the success and failure counts are the
numbers of entries whose `convert_page` returns a value or `none`
respectively, so they always sum to the catalog size and each entry is
counted exactly once. -/
theorem c9_counts_partition (fetch : String → HttpResult)
    (pages : List (String × String)) :
    (convert_all fetch pages).1 + (convert_all fetch pages).2 = pages.length
    ∧ (convert_all fetch pages).1
        = pages.countP (fun e => (convert_page fetch e.1 e.2).isSome)
    ∧ (convert_all fetch pages).2
        = pages.countP (fun e => (convert_page fetch e.1 e.2).isNone) := by
  rw [convert_all_counts]
  refine ⟨?_, rfl, rfl⟩
  induction pages with
  | nil => simp
  | cons e rest ih =>
    simp only [List.countP_cons, List.length_cons]
    cases hconv : convert_page fetch e.1 e.2 <;> simp [hconv] <;> omega

/-- C10: headings are emitted per run of adjacent entries, not per
distinct section: in the actual catalog the fallback section appears
twice (once for `get-started`, again for `feedback`/`affiliate`/
`emails`), so the same H2 heading occurs twice in the index. -/
theorem c10_repeated_heading :
    (indexPieces "" get_all_pages).count (IdxPiece.heading "主要文档") = 2
    ∧ ((indexPieces "" get_all_pages).map pieceStr).count "\n## 主要文档\n\n" = 2
    ∧ 1 < (indexPieces "" get_all_pages).count (IdxPiece.heading "主要文档")
    ∧ sectionOf "get-started" = "主要文档"
    ∧ sectionOf "feedback" = "主要文档"
    ∧ sectionOf "affiliate" = "主要文档"
    ∧ sectionOf "emails" = "主要文档" :=
  ⟨rfl, rfl, by decide, rfl, rfl, rfl, rfl⟩

end BatchConvert
